import Mathlib

/-!
Verification development for the Temu HTML-to-CSV converter
(`html2csv_final.py`).  The extraction pipeline (`parse_temu_html`) and the
CSV sink (`save_to_csv`) are shallowly embedded over an explicit DOM model:
text is `List Char`, Python floats are modelled as exact rationals `ℚ`,
and every regular-expression search of the source is translated into an
explicit scanning function with Python's leftmost / greedy semantics.

Rational arithmetic inside the executable definitions is phrased through
`mkRat`-based wrappers (`qAdd`, `qSub`, `qMul`, `qDiv`) which the kernel
can evaluate; the lemmas `qAdd_eq` etc. identify them with the field
operations of `ℚ` for use in the general theorems.
-/

namespace Temu

/-! ### Kernel-computable rational arithmetic -/

/-- Addition on `ℚ` via `mkRat` (kernel-reducible; equals `+` by `qAdd_eq`). -/
def qAdd (a b : ℚ) : ℚ := mkRat (a.num * b.den + b.num * a.den) (a.den * b.den)

/-- Subtraction on `ℚ` via `mkRat`. -/
def qSub (a b : ℚ) : ℚ := mkRat (a.num * b.den - b.num * a.den) (a.den * b.den)

/-- Multiplication on `ℚ` via `mkRat`. -/
def qMul (a b : ℚ) : ℚ := mkRat (a.num * b.num) (a.den * b.den)

/-- Division on `ℚ` via `mkRat` (division by zero gives zero, as in `ℚ`). -/
def qDiv (a b : ℚ) : ℚ :=
  if 0 ≤ b.num then mkRat (a.num * (b.den : ℤ)) (a.den * b.num.toNat)
  else mkRat (-(a.num * (b.den : ℤ))) (a.den * (-b.num).toNat)

/-! ### Basic character and string utilities -/

/-- ASCII whitespace, as recognised by Python's `str.strip` and `\s`. -/
def isSpaceC (c : Char) : Bool :=
  c = ' ' || c = '\t' || c = '\n' || c = '\r' || c = '\x0b' || c = '\x0c'

/-- Decimal digit test (`\d` for ASCII input). -/
def isDigitC (c : Char) : Bool :=
  48 ≤ c.toNat && c.toNat ≤ 57

/-- Lower-case an ASCII letter (for `re.IGNORECASE` matching). -/
def toLowerC (c : Char) : Char :=
  if 65 ≤ c.toNat && c.toNat ≤ 90 then Char.ofNat (c.toNat + 32) else c

/-- `startsWithL s p`: the char list `s` starts with the pattern `p`. -/
def startsWithL : List Char → List Char → Bool
  | _, [] => true
  | [], _ :: _ => false
  | a :: s, b :: p => a = b && startsWithL s p

/-- Case-insensitive prefix test; the pattern `p` is given in lower case. -/
def startsWithCI : List Char → List Char → Bool
  | _, [] => true
  | [], _ :: _ => false
  | a :: s, b :: p => toLowerC a = b && startsWithCI s p

/-- Substring occurrence test (Python's `pat in s`). -/
def containsSub : List Char → List Char → Bool
  | [], p => startsWithL [] p
  | s@(_ :: t), p => startsWithL s p || containsSub t p

/-- Python `str.strip()`: drop ASCII whitespace from both ends. -/
def stripL (s : List Char) : List Char :=
  ((s.dropWhile isSpaceC).reverse.dropWhile isSpaceC).reverse

/-- `re.sub(r'\s+', ' ', ·)`: collapse every whitespace run to one space.
The boolean records whether the previous character was whitespace. -/
def collapseWsAux : Bool → List Char → List Char
  | _, [] => []
  | prev, c :: t =>
    if isSpaceC c then
      if prev then collapseWsAux true t else ' ' :: collapseWsAux true t
    else c :: collapseWsAux false t

def collapseWs (s : List Char) : List Char := collapseWsAux false s

/-- Fuel-driven worker for Python's `str.replace` (all non-overlapping
occurrences, scanned left to right).  The fuel is an upper bound on the
number of scanning steps; `pyReplace` supplies enough. -/
def pyReplaceF : ℕ → List Char → List Char → List Char → List Char
  | 0, s, _, _ => s
  | _ + 1, [], _, _ => []
  | f + 1, s@(c :: t), pat, rep =>
    if !pat.isEmpty && startsWithL s pat then
      rep ++ pyReplaceF f (s.drop pat.length) pat rep
    else
      c :: pyReplaceF f t pat rep

/-- Python `s.replace(pat, rep)`. -/
def pyReplace (s pat rep : List Char) : List Char :=
  pyReplaceF (s.length + 1) s pat rep

/-! ### Numeral parsing (`float(...)` / `int(...)` on matched groups) -/

/-- Value of a run of decimal digit characters. -/
def natFromDigits (ds : List Char) : ℕ :=
  ds.foldl (fun n c => 10 * n + (c.toNat - 48)) 0

/-- `(10 : ℚ) ^ k`, kernel-computable. -/
def pow10 (k : ℕ) : ℚ := ((10 ^ k : ℕ) : ℚ)

/-- `float` value of a numeral split into integer and fractional digits. -/
def valueOf (ds fs : List Char) : ℚ :=
  qAdd (natFromDigits ds : ℚ) (qDiv (natFromDigits fs : ℚ) (pow10 fs.length))

/-- `float` value of a matched group of the shape `digits ['.' digits]`. -/
def valueOfGroup (g : List Char) : ℚ :=
  match g.dropWhile (fun c => c ≠ '.') with
  | '.' :: fs => valueOf (g.takeWhile (fun c => c ≠ '.')) fs
  | _ => (natFromDigits (g.takeWhile (fun c => c ≠ '.')) : ℚ)

/-- Python `int(...)` applied to a float: truncation toward zero. -/
def truncRat (q : ℚ) : ℤ :=
  if 0 ≤ q then ⌊q⌋ else ⌈q⌉

/-- Python `round` to the nearest integer (round half to even) on the
exact rational model. -/
def roundHalfEven (q : ℚ) : ℤ :=
  if qSub q ((⌊q⌋ : ℤ) : ℚ) < mkRat 1 2 then ⌊q⌋
  else if mkRat 1 2 < qSub q ((⌊q⌋ : ℤ) : ℚ) then ⌊q⌋ + 1
  else if ⌊q⌋ % 2 = 0 then ⌊q⌋ else ⌊q⌋ + 1

def pyround2 (q : ℚ) : ℚ := qDiv ((roundHalfEven (qMul q 100) : ℤ) : ℚ) 100

/-! ### The regex searches of `html2csv_final.py`

Each scanner translates one `re.search` / `re.findall` of the source,
with the leftmost-match / greedy semantics of Python's engine.  For all
of these patterns greedy matching needs no backtracking (the context
following each starred subpattern can never match a character the star
could give back), so each scanner tries successive start positions and
matches greedily. -/

/-- First match of `\d+\.?\d*` (used by `extract_number` and
`extract_price_from_text`): returns integer and fractional digit runs. -/
def searchNum : List Char → Option (List Char × List Char)
  | [] => none
  | s@(c :: t) =>
    if isDigitC c then
      let ds := s.takeWhile isDigitC
      match s.dropWhile isDigitC with
      | '.' :: r => some (ds, r.takeWhile isDigitC)
      | _ => some (ds, [])
    else searchNum t

/-- First match of `(\d+\.?\d*)K` (the `K`-suffix branch of
`extract_number`): the group's integer and fractional digit runs. -/
def searchNumK : List Char → Option (List Char × List Char)
  | [] => none
  | s@(c :: t) =>
    if isDigitC c then
      let ds := s.takeWhile isDigitC
      let r1 := s.dropWhile isDigitC
      let (fs, r2) :=
        match r1 with
        | '.' :: r => (r.takeWhile isDigitC, r.dropWhile isDigitC)
        | _ => (([] : List Char), r1)
      match r2 with
      | 'K' :: _ => some (ds, fs)
      | _ => searchNumK t
    else searchNumK t

/-- `extract_number` (lines 23–35): strip commas and spaces; if a `K` is
present try `(\d+\.?\d*)K` and scale by 1000 with `int` truncation;
otherwise (or if that pattern fails) parse the first bare numeral. -/
def extract_number (t : List Char) : Option ℚ :=
  if t = [] then none
  else
    let t2 := (t.filter (fun c => c ≠ ',')).filter (fun c => c ≠ ' ')
    if containsSub t2 ['K', '+'] || containsSub t2 ['K'] then
      match searchNumK t2 with
      | some (ds, fs) => some ((truncRat (qMul (valueOf ds fs) 1000) : ℤ) : ℚ)
      | none => (searchNum t2).map fun p => valueOf p.1 p.2
    else (searchNum t2).map fun p => valueOf p.1 p.2

/-- `extract_price_from_text` (lines 38–47): drop `Rs.`, `Rs` and commas,
strip, then parse the first `\d+\.?\d*` numeral. -/
def extract_price_from_text (t : List Char) : Option ℚ :=
  if t = [] then none
  else
    let t1 := pyReplace t ['R', 's', '.'] []
    let t2 := pyReplace t1 ['R', 's'] []
    let t3 := pyReplace t2 [','] []
    let t4 := stripL t3
    (searchNum t4).map fun p => valueOf p.1 p.2

/-- `re.findall(r'Rs\.?\s*([0-9,]+\.?\d*)', ·)` (line 103), fuel-driven:
every price group, scanning left to right, resuming after each match. -/
def findallPricesF : ℕ → List Char → List (List Char)
  | 0, _ => []
  | _ + 1, [] => []
  | f + 1, s@(_ :: t) =>
    if startsWithL s ['R', 's'] then
      let r0 := s.drop 2
      let r1 := match r0 with | '.' :: r => r | _ => r0
      let r2 := r1.dropWhile isSpaceC
      let g1 := r2.takeWhile (fun c => isDigitC c || c = ',')
      if g1.isEmpty then findallPricesF f t
      else
        let r3 := r2.dropWhile (fun c => isDigitC c || c = ',')
        match r3 with
        | '.' :: r => (g1 ++ '.' :: r.takeWhile isDigitC) :: findallPricesF f (r.dropWhile isDigitC)
        | _ => g1 :: findallPricesF f r3
    else findallPricesF f t

def findallPrices (s : List Char) : List (List Char) := findallPricesF (s.length + 1) s

/-- `re.search(r'(\d+\.?\d*K?\+?)\s*sold', ·, re.IGNORECASE)` (line 116):
the matched group. -/
def soldSearch : List Char → Option (List Char)
  | [] => none
  | s@(c :: t) =>
    if isDigitC c then
      let ds := s.takeWhile isDigitC
      let r1 := s.dropWhile isDigitC
      let (dp, r2) :=
        match r1 with
        | '.' :: r => ('.' :: r.takeWhile isDigitC, r.dropWhile isDigitC)
        | _ => (([] : List Char), r1)
      let (kp, r3) :=
        match r2 with
        | k :: r => if k = 'K' || k = 'k' then ([k], r) else (([] : List Char), r2)
        | [] => (([] : List Char), r2)
      let (pp, r4) :=
        match r3 with
        | '+' :: r => (['+'], r)
        | _ => (([] : List Char), r3)
      if startsWithCI (r4.dropWhile isSpaceC) ['s', 'o', 'l', 'd'] then
        some (ds ++ dp ++ kp ++ pp)
      else soldSearch t
    else soldSearch t

/-- `re.search(r'([0-5]\.?\d*)\s*(?:out of|★)', ·)` (line 124): the group. -/
def ratingSearch : List Char → Option (List Char)
  | [] => none
  | c :: t =>
    if 48 ≤ c.toNat && c.toNat ≤ 53 then
      let (g, r1) :=
        match t with
        | '.' :: r => ('.' :: r.takeWhile isDigitC, r.dropWhile isDigitC)
        | _ => (t.takeWhile isDigitC, t.dropWhile isDigitC)
      let r2 := r1.dropWhile isSpaceC
      if startsWithL r2 ['o', 'u', 't', ' ', 'o', 'f'] || startsWithL r2 ['★'] then
        some (c :: g)
      else ratingSearch t
    else ratingSearch t

/-- `re.search(r'([4-5]\.\d+)', ·)` (line 127), the standalone-rating
fallback: the group. -/
def ratingFallback : List Char → Option (List Char)
  | [] => none
  | c :: t =>
    if c = '4' || c = '5' then
      match t with
      | '.' :: d :: r =>
        if isDigitC d then some (c :: '.' :: d :: r.takeWhile isDigitC) else ratingFallback t
      | _ => ratingFallback t
    else ratingFallback t

/-- `re.search(r'(\d+)\s*(?:review|rating)', ·, re.IGNORECASE)` (line 133). -/
def reviewSearch : List Char → Option (List Char)
  | [] => none
  | s@(c :: t) =>
    if isDigitC c then
      let ds := s.takeWhile isDigitC
      let r1 := (s.dropWhile isDigitC).dropWhile isSpaceC
      if startsWithCI r1 ['r', 'e', 'v', 'i', 'e', 'w'] ||
          startsWithCI r1 ['r', 'a', 't', 'i', 'n', 'g'] then some ds
      else reviewSearch t
    else reviewSearch t

/-- `re.search(r'-g-(\d+)', href)` (line 139): the digit group. -/
def idSearch : List Char → Option (List Char)
  | [] => none
  | s@(_ :: t) =>
    if startsWithL s ['-', 'g', '-'] then
      match s.drop 3 with
      | d :: r => if isDigitC d then some (d :: r.takeWhile isDigitC) else idSearch t
      | [] => idSearch t
    else idSearch t

/-- `re.compile(r'/pk-en/.*\.html')` searched against an href (line 63):
some occurrence of `/pk-en/`, then `.html` further right with no newline
in between (`.` does not match a newline). -/
def findDotHtml : List Char → Bool
  | [] => false
  | s@(c :: t) =>
    if startsWithL s ['.', 'h', 't', 'm', 'l'] then true
    else if c = '\n' then false
    else findDotHtml t

def hrefMatch : List Char → Bool
  | [] => false
  | s@(_ :: t) =>
    if startsWithL s ['/', 'p', 'k', '-', 'e', 'n', '/'] then
      if findDotHtml (s.drop 7) then true else hrefMatch t
    else hrefMatch t

/-! ### The DOM model

`BeautifulSoup(html, 'html.parser')` yields a tree of tags and text
nodes.  The extractor consumes a node only through its tag name, its
attributes, and its concatenated text (`get_text`), so a node is a tag
name with attributes and children, or a string.  An `AnchorCtx` packages
one anchor candidate together with its chain of ancestors as produced by
repeated `find_parent()` calls — from the immediate parent up to (and
including) the root `[document]` object. -/

inductive Node where
  | text : String → Node
  | elem : String → List (String × String) → List Node → Node

/-- Tag name (`tag.name`); text nodes have no name. -/
def Node.tagName : Node → String
  | .text _ => ""
  | .elem n _ _ => n

def lookupAttr : List (String × String) → String → Option String
  | [], _ => none
  | (k, v) :: t, key => if k = key then some v else lookupAttr t key

/-- Attribute lookup (`tag.get(key)`). -/
def Node.attr? : Node → String → Option String
  | .text _, _ => none
  | .elem _ attrs _, key => lookupAttr attrs key

/-- `link.get('href', '')`. -/
def getHref (n : Node) : String := (n.attr? "href").getD ""

mutual

/-- `tag.get_text()`: concatenation of all descendant strings. -/
def Node.getTextL : Node → List Char
  | .text s => s.data
  | .elem _ _ cs => getTextAll cs

def getTextAll : List Node → List Char
  | [] => []
  | n :: ns => Node.getTextL n ++ getTextAll ns

end

mutual

/-- `tag.get_text(strip=True)`: each descendant string stripped, then
concatenated (empty remnants contribute nothing to the join). -/
def Node.getTextStripL : Node → List Char
  | .text s => stripL s.data
  | .elem _ _ cs => getTextStripAll cs

def getTextStripAll : List Node → List Char
  | [] => []
  | n :: ns => Node.getTextStripL n ++ getTextStripAll ns

end

/-- One anchor candidate with its ancestor chain (immediate parent first). -/
structure AnchorCtx where
  node : Node
  ancestors : List Node

/-- The parent-walk loop (lines 86–94): starting at the immediate parent,
stop at the first ancestor that is the `body` tag (the `while` guard) or
whose full text contains `Rs.` (the `break`); `none` when the walk runs
past the root. -/
def walkUp : List Node → Option Node
  | [] => none
  | n :: rest =>
    if n.tagName = "body" then some n
    else if containsSub n.getTextL ['R', 's', '.'] then some n
    else walkUp rest

/-- Lines 86–97: the container selected for field extraction; when the
walk ran past the root (`if not parent`), fall back to the immediate
parent (`link.find_parent()`). -/
def containerOf (a : AnchorCtx) : Option Node :=
  match walkUp a.ancestors with
  | some n => some n
  | none => a.ancestors.head?

/-- Line 100: the container's full text, `''` when there is no parent. -/
def parentText (a : AnchorCtx) : List Char :=
  match containerOf a with
  | some n => n.getTextL
  | none => []

/-! ### Field extraction (lines 103–144) -/

/-- Lines 103–105: all `Rs.`-prefixed numerals of the container text,
parsed, keeping only truthy positive values. -/
def pricesOf (txt : List Char) : List ℚ :=
  ((((findallPrices txt).filter fun g => !g.isEmpty).map extract_price_from_text).filterMap
    fun o =>
      match o with
      | some q => if q ≠ 0 ∧ 0 < q then some q else none
      | none => none)

/-- Line 107: `prices[0]` if present. -/
def currentPriceOf (txt : List Char) : Option ℚ := (pricesOf txt).head?

/-- Line 108: `prices[1]` when it exists and exceeds `prices[0]`. -/
def originalPriceOf (txt : List Char) : Option ℚ :=
  match pricesOf txt with
  | p0 :: p1 :: _ => if p0 < p1 then some p1 else none
  | _ => none

/-- Lines 111–113: the rounded discount, `0` unless both prices are
truthy and `original > current`. -/
def discountOf (txt : List Char) : ℚ :=
  match originalPriceOf txt, currentPriceOf txt with
  | some o, some c =>
    if o ≠ 0 ∧ c ≠ 0 ∧ c < o then pyround2 (qMul (qDiv (qSub o c) o) 100) else 0
  | _, _ => 0

/-- Lines 116–119: sold count via `extract_number`, `int`-truncated. -/
def soldOf (txt : List Char) : ℤ :=
  match soldSearch txt with
  | some g => truncRat ((extract_number g).getD 0)
  | none => 0

/-- Lines 122–130: rating from the primary pattern, else the standalone
fallback, else `0`. -/
def ratingOf (txt : List Char) : ℚ :=
  match ratingSearch txt with
  | some g => valueOfGroup g
  | none =>
    match ratingFallback txt with
    | some g => valueOfGroup g
    | none => 0

/-- Lines 133–135: review count, default `0`. -/
def reviewOf (txt : List Char) : ℕ :=
  match reviewSearch txt with
  | some ds => natFromDigits ds
  | none => 0

/-- Lines 138–141: product id from the href, `''` when absent. -/
def productIdOf (href : String) : String :=
  match idSearch href.data with
  | some ds => String.mk ds
  | none => ""

/-- Line 144: the cleaned title of the anchor. -/
def titleOf (a : AnchorCtx) : String :=
  String.mk (stripL (collapseWs (Node.getTextStripL a.node)))

/-- Line 157: absolute URL. -/
def urlOf (href : String) : String :=
  if startsWithL href.data ['h', 't', 't', 'p'] then href else "https://www.temu.com" ++ href

/-- The record shape written by lines 148–158. -/
structure Product where
  product_id : String
  title : String
  current_price : Option ℚ
  original_price : Option ℚ
  discount_percent : ℚ
  sold_count : ℤ
  rating : ℚ
  review_count : ℕ
  url : String
deriving DecidableEq

/-- Lines 80–160, the per-candidate body: build the record, keep it only
when the cleaned title is truthy and longer than 5 characters. -/
def extractProduct (a : AnchorCtx) : Option Product :=
  if titleOf a ≠ "" ∧ 5 < (titleOf a).length then
    some
      { product_id := productIdOf (getHref a.node)
        title := titleOf a
        current_price := currentPriceOf (parentText a)
        original_price := originalPriceOf (parentText a)
        discount_percent := discountOf (parentText a)
        sold_count := soldOf (parentText a)
        rating := ratingOf (parentText a)
        review_count := reviewOf (parentText a)
        url := urlOf (getHref a.node) }
  else none

/-- Line 63: `find_all('a', href=re.compile(r'/pk-en/.*\.html'))` — an
`a` tag carrying an href the pattern matches. -/
def isProductLink (n : Node) : Bool :=
  n.tagName = "a" &&
    match n.attr? "href" with
    | some h => hrefMatch h.data
    | none => false

/-- Lines 69–76: drop denylisted hrefs, keep long hyphenated ones. -/
def keepLink (n : Node) : Bool :=
  let h := (getHref n).data
  !(containsSub h "channel".data || containsSub h "home-kitchen".data ||
      containsSub h "category".data || containsSub h "search".data) &&
    (decide (30 < h.length) && h.contains '-')

/-- `parse_temu_html` over an abstract document, given as the list of the
document's element nodes in document order, each with its ancestor
chain.  Line 63 filters the anchors, lines 69–76 filter the hrefs, and
lines 80–160 map the survivors to records. -/
def extract (doc : List AnchorCtx) : List Product :=
  (((doc.filter fun a => isProductLink a.node).filter fun a => keepLink a.node).filterMap
    extractProduct)

/-! ### The tabular sink (`save_to_csv`, lines 177–215)

`csv.DictWriter` with the default `excel` dialect: comma delimiter,
minimal quoting (a field is quoted exactly when it contains a comma, a
double quote, or a CR/LF, with inner quotes doubled), `\r\n` row
terminator.  Numeric cells are rendered by a decimal formatter for the
exact-rational float model; no claim constrains their digit strings
beyond non-emptiness. -/

/-- Decimal digits of `n`, most significant first (fuel-driven). -/
def natCharsAux : ℕ → ℕ → List Char → List Char
  | 0, _, acc => acc
  | f + 1, n, acc => if n = 0 then acc else natCharsAux f (n / 10) (Nat.digitChar (n % 10) :: acc)

def natChars (n : ℕ) : List Char := if n = 0 then ['0'] else natCharsAux (n + 1) n []

def fmtNat (n : ℕ) : String := String.mk (natChars n)

def fmtInt (i : ℤ) : String :=
  if i < 0 then String.mk ('-' :: natChars (-i).toNat) else String.mk (natChars i.toNat)

/-- Absolute value on `ℚ`, kernel-computable. -/
def qAbs (q : ℚ) : ℚ := if q < 0 then mkRat (-q.num) q.den else q

def padZeros (l : List Char) (k : ℕ) : List Char := List.replicate (k - l.length) '0' ++ l

/-- Decimal rendering of a non-negative rational: digits, and a decimal
point when the denominator divides a power of ten; `num/den` fallback. -/
def fmtRatAbs (a : ℚ) : List Char :=
  match (List.range 40).find? (fun k => (qMul a (pow10 k)).den = 1) with
  | some k =>
    let m := (qMul a (pow10 k)).num.toNat
    if k = 0 then natChars m
    else natChars (m / 10 ^ k) ++ '.' :: padZeros (natChars (m % 10 ^ k)) k
  | none => natChars a.num.natAbs ++ '/' :: natChars a.den

/-- Decimal rendering of the numeric value of a cell. -/
def fmtRat (q : ℚ) : String :=
  if q < 0 then String.mk ('-' :: fmtRatAbs (qAbs q)) else String.mk (fmtRatAbs q)

/-- Lines 205–206: `product[...] or ''` — `None` (and a zero value, which
is falsy in Python) serializes as the empty cell. -/
def priceCell : Option ℚ → String
  | some q => if q = 0 then "" else fmtRat q
  | none => ""

/-- The nine `fieldnames` of lines 185–195, in order. -/
def headerCells : List String :=
  ["Product ID", "Title", "Current Price (Rs.)", "Original Price (Rs.)", "Discount (%)",
    "Items Sold", "Rating (Stars)", "Review Count", "Product URL"]

/-- Lines 202–212: the cells of one record's row, in column order. -/
def productRow (p : Product) : List String :=
  [p.product_id, p.title, priceCell p.current_price, priceCell p.original_price,
    fmtRat p.discount_percent, fmtInt p.sold_count, fmtRat p.rating, fmtNat p.review_count,
    p.url]

/-- Double every inner quote (the writer's escaping inside quoted cells). -/
def escQ : List Char → List Char
  | [] => []
  | '"' :: t => '"' :: '"' :: escQ t
  | c :: t => c :: escQ t

/-- A cell needs quoting when it contains delimiter, quote, CR or LF. -/
def needsQuote (s : List Char) : Bool :=
  s.any fun c => c = ',' || c = '"' || c = '\r' || c = '\n'

def renderCell (s : String) : List Char :=
  if needsQuote s.data then '"' :: (escQ s.data ++ ['"']) else s.data

def joinComma : List (List Char) → List Char
  | [] => []
  | [c] => c
  | c :: cs => c ++ ',' :: joinComma cs

def renderRow (r : List String) : List Char := joinComma (r.map renderCell) ++ ['\r', '\n']

def concatAll : List (List Char) → List Char
  | [] => []
  | l :: ls => l ++ concatAll ls

/-- The full text `save_to_csv` writes: header row then one row per
record, in order. -/
def csvFileContent (ps : List Product) : String :=
  String.mk (renderRow headerCells ++ concatAll (ps.map fun p => renderRow (productRow p)))

/-- Lines 177–215: `save_to_csv` — `none` models the early-return no-op
on an empty record list (lines 181–183), otherwise the written text. -/
def saveToCsv (ps : List Product) : Option String :=
  if ps = [] then none else some (csvFileContent ps)

/-! A CSV reader for the dialect written by the sink: a two-state
character machine (`scanU` outside quotes, `scanQ` inside a quoted
cell).  `cur` is the cell being read, `row` the cells finished so far in
the current row. -/

mutual

/-- Reader state: outside quotes. -/
def scanU : List Char → List Char → List (List Char) → List (List (List Char))
  | [], cur, row => if cur.isEmpty && row.isEmpty then [] else [row ++ [cur]]
  | '\r' :: '\n' :: t, cur, row => (row ++ [cur]) :: scanU t [] []
  | c :: t, cur, row =>
    if c = ',' then scanU t [] (row ++ [cur])
    else if c = '"' then
      if cur.isEmpty then scanQ t [] row else scanU t (cur ++ [c]) row
    else scanU t (cur ++ [c]) row

/-- Reader state: inside a quoted cell; a doubled quote is literal. -/
def scanQ : List Char → List Char → List (List Char) → List (List (List Char))
  | [], cur, row => [row ++ [cur]]
  | '"' :: '"' :: t, cur, row => scanQ t (cur ++ ['"']) row
  | '"' :: t, cur, row => scanU t cur row
  | c :: t, cur, row => scanQ t (cur ++ [c]) row

end

/-- Parse a CSV text into its rows of cells. -/
def parseCSV (s : String) : List (List String) :=
  (scanU s.data [] []).map fun r => r.map String.mk

/-! ### Concrete documents for the spec scenarios -/

/-- Scenario A (§8): anchor `/pk-en/widget-thing-g-998877.html` titled
`Nice Widget`, inside a container whose text is
`Rs. 500 Rs. 1,200 3.2K+ sold 4.7 out of 5 120 reviews`. -/
def scenarioA : AnchorCtx :=
  { node := .elem "a" [("href", "/pk-en/widget-thing-g-998877.html")] [.text "Nice Widget"]
    ancestors := [.elem "div" [] [.text "Rs. 500 Rs. 1,200 3.2K+ sold 4.7 out of 5 120 reviews"]] }

/-- The record Scenario A produces (rationals in `mkRat` form so that the
kernel can evaluate with it). -/
def recA : Product :=
  { product_id := "998877", title := "Nice Widget", current_price := some 500,
    original_price := some 1200, discount_percent := mkRat 5833 100, sold_count := 3200,
    rating := mkRat 47 10, review_count := 120,
    url := "https://www.temu.com/pk-en/widget-thing-g-998877.html" }

/-- Scenario B (§8): a container whose only price text is `Rs. 750`. -/
def scenarioB : AnchorCtx :=
  { node := .elem "a" [("href", "/pk-en/simple-item-g-4242424.html")] [.text "Simple Item"]
    ancestors := [.elem "div" [] [.text "Rs. 750"]] }

/-- Scenario C (§8): anchor text `Hi` (length ≤ 5). -/
def scenarioC : AnchorCtx :=
  { node := .elem "a" [("href", "/pk-en/hi-item-thing-g-777777.html")] [.text "Hi"]
    ancestors := [.elem "div" [] [.text "Rs. 100"]] }

/-- A container whose text `Rs. 100 59 out of 5` makes the rating
pattern `([0-5]\.?\d*)\s*(?:out of|★)` capture the group `59`. -/
def ratingCexCtx : AnchorCtx :=
  { node := .elem "a" [("href", "/pk-en/super-gadget-pro-max-g-123456.html")] [.text "Super Gadget"]
    ancestors := [.elem "div" [] [.text "Rs. 100 59 out of 5"]] }

/-- An anchor inside `div → body → html → [document]` where no ancestor
text contains `Rs.` at all. -/
def noRsCtx : AnchorCtx :=
  { node := .elem "a" [("href", "/pk-en/card-without-price-g-55.html")] [.text "Card Without Price"]
    ancestors :=
      [.elem "div" [] [.text "Nice product card"],
       .elem "body" [] [.text "Nice product card"],
       .elem "html" [] [.text "Nice product card"],
       .elem "[document]" [] [.text "Nice product card"]] }

/-- What claim C3 says container resolution computes: the first ancestor
whose text contains `Rs.`, else the immediate parent.  Modelled from the
claim for comparison against `containerOf`. -/
def specContainerOf (anc : List Node) : Option Node :=
  match anc.find? (fun n => containsSub n.getTextL ['R', 's', '.']) with
  | some n => some n
  | none => anc.head?

/-- A link whose href is the denylisted fragment itself. -/
def ctxDeny : AnchorCtx :=
  { node := .elem "a" [("href", "category")] []
    ancestors := [] }

/-- An otherwise-valid product href of length exactly 30. -/
def ctx30 : AnchorCtx :=
  { node := .elem "a" [("href", "/pk-en/a-b-cdefghij-g-123.html")] [.text "Valid Name Product"]
    ancestors := [.elem "div" [] [.text "Rs. 100"]] }

/-- A record with absent prices and a title holding a comma, a quote and
a newline (for the sink claims). -/
def demoProd : Product :=
  { product_id := "998877", title := "A,B\"q\"\nC widget", current_price := none,
    original_price := none, discount_percent := 0, sold_count := 3200, rating := mkRat 47 10,
    review_count := 120, url := "https://www.temu.com/x-y.html" }

/-- The record `extractProduct` emits for `ratingCexCtx` (rating 59). -/
def cexRec : Product :=
  { product_id := "123456", title := "Super Gadget", current_price := some 100,
    original_price := none, discount_percent := 0, sold_count := 0, rating := 59,
    review_count := 0, url := "https://www.temu.com/pk-en/super-gadget-pro-max-g-123456.html" }

/-! ## Helper lemmas: the `mkRat` wrappers are the field operations -/

theorem qAdd_eq (a b : ℚ) : qAdd a b = a + b := by
  unfold qAdd
  rw [Rat.mkRat_eq_divInt, Rat.divInt_eq_div]
  push_cast
  rw [div_eq_iff (mul_ne_zero (Nat.cast_ne_zero.mpr a.den_nz) (Nat.cast_ne_zero.mpr b.den_nz))]
  rw [← Rat.mul_den_eq_num a, ← Rat.mul_den_eq_num b]
  ring

theorem qSub_eq (a b : ℚ) : qSub a b = a - b := by
  unfold qSub
  rw [Rat.mkRat_eq_divInt, Rat.divInt_eq_div]
  push_cast
  rw [div_eq_iff (mul_ne_zero (Nat.cast_ne_zero.mpr a.den_nz) (Nat.cast_ne_zero.mpr b.den_nz))]
  rw [← Rat.mul_den_eq_num a, ← Rat.mul_den_eq_num b]
  ring

theorem qMul_eq (a b : ℚ) : qMul a b = a * b := by
  unfold qMul
  rw [Rat.mkRat_eq_divInt, Rat.divInt_eq_div]
  push_cast
  rw [div_eq_iff (mul_ne_zero (Nat.cast_ne_zero.mpr a.den_nz) (Nat.cast_ne_zero.mpr b.den_nz))]
  rw [← Rat.mul_den_eq_num a, ← Rat.mul_den_eq_num b]
  ring

theorem qDiv_eq (a b : ℚ) : qDiv a b = a / b := by
  unfold qDiv
  rcases lt_trichotomy b.num 0 with hb | hb | hb
  · rw [if_neg (by omega)]
    have hbne : b ≠ 0 := by
      intro hz
      rw [hz] at hb
      norm_num at hb
    rw [Rat.mkRat_eq_divInt, Rat.divInt_eq_div]
    push_cast [Int.toNat_of_nonneg (by omega : (0 : ℤ) ≤ -b.num)]
    rw [div_eq_div_iff
        (mul_ne_zero (Nat.cast_ne_zero.mpr a.den_nz)
          (neg_ne_zero.mpr (Int.cast_ne_zero.mpr (by omega : b.num ≠ 0)))) hbne]
    rw [← Rat.mul_den_eq_num a, ← Rat.mul_den_eq_num b]
    ring
  · have hb0 : b = 0 := by
      rwa [Rat.num_eq_zero] at hb
    rw [if_pos (by omega), hb0]
    simp
  · rw [if_pos (by omega)]
    have hbne : b ≠ 0 := by
      intro hz
      rw [hz] at hb
      norm_num at hb
    rw [Rat.mkRat_eq_divInt, Rat.divInt_eq_div]
    push_cast [Int.toNat_of_nonneg (by omega : (0 : ℤ) ≤ b.num)]
    rw [div_eq_div_iff
        (mul_ne_zero (Nat.cast_ne_zero.mpr a.den_nz) (Int.cast_ne_zero.mpr (by omega : b.num ≠ 0)))
        hbne]
    rw [← Rat.mul_den_eq_num a, ← Rat.mul_den_eq_num b]
    ring

theorem pow10_eq (k : ℕ) : pow10 k = (10 : ℚ) ^ k := by
  unfold pow10
  push_cast
  ring

/-! ## Helper lemmas: non-negativity of the extracted numerics -/

theorem valueOf_nonneg (ds fs : List Char) : 0 ≤ valueOf ds fs := by
  unfold valueOf
  rw [qAdd_eq, qDiv_eq, pow10_eq]
  positivity

theorem valueOfGroup_nonneg (g : List Char) : 0 ≤ valueOfGroup g := by
  unfold valueOfGroup
  split
  · exact valueOf_nonneg _ _
  · positivity

theorem truncRat_nonneg (q : ℚ) (h : 0 ≤ q) : 0 ≤ truncRat q := by
  unfold truncRat
  rw [if_pos h]
  exact Int.floor_nonneg.mpr h

theorem roundHalfEven_nonneg (q : ℚ) (h : 0 ≤ q) : 0 ≤ roundHalfEven q := by
  have hf : 0 ≤ ⌊q⌋ := Int.floor_nonneg.mpr h
  unfold roundHalfEven
  split
  · exact hf
  · split
    · omega
    · split
      · exact hf
      · omega

theorem pyround2_nonneg (q : ℚ) (h : 0 ≤ q) : 0 ≤ pyround2 q := by
  unfold pyround2
  rw [qDiv_eq]
  have h1 : 0 ≤ qMul q 100 := by
    rw [qMul_eq]
    positivity
  have h2 : (0 : ℚ) ≤ ((roundHalfEven (qMul q 100) : ℤ) : ℚ) := by
    exact_mod_cast roundHalfEven_nonneg _ h1
  positivity

theorem extract_number_nonneg (t : List Char) (q : ℚ) (h : extract_number t = some q) :
    0 ≤ q := by
  simp only [extract_number] at h
  split at h
  · cases h
  · split at h
    · split at h
      · rename_i ds fs _
        injection h with h
        subst h
        have hv : 0 ≤ qMul (valueOf ds fs) 1000 := by
          rw [qMul_eq]
          have := valueOf_nonneg ds fs
          positivity
        exact_mod_cast truncRat_nonneg _ hv
      · obtain ⟨p, _, rfl⟩ := Option.map_eq_some'.mp h
        exact valueOf_nonneg _ _
    · obtain ⟨p, _, rfl⟩ := Option.map_eq_some'.mp h
      exact valueOf_nonneg _ _

theorem ratingOf_nonneg (txt : List Char) : 0 ≤ ratingOf txt := by
  unfold ratingOf
  split
  · exact valueOfGroup_nonneg _
  · split
    · exact valueOfGroup_nonneg _
    · exact le_refl 0

theorem soldOf_nonneg (txt : List Char) : 0 ≤ soldOf txt := by
  unfold soldOf
  split
  · rename_i g _
    cases he : extract_number g with
    | none => simp [he, truncRat_nonneg 0 (le_refl 0)]
    | some q =>
      simp only [he, Option.getD_some]
      exact truncRat_nonneg _ (extract_number_nonneg g q he)
  · exact le_refl 0

theorem pricesOf_pos (txt : List Char) (q : ℚ) (hq : q ∈ pricesOf txt) : 0 < q := by
  unfold pricesOf at hq
  rw [List.mem_filterMap] at hq
  obtain ⟨o, _, ho⟩ := hq
  rcases o with _ | r
  · simp at ho
  · dsimp only at ho
    split at ho
    · injection ho with ho
      subst ho
      rename_i hcond
      exact hcond.2
    · cases ho

theorem currentPriceOf_pos (txt : List Char) (q : ℚ) (h : currentPriceOf txt = some q) :
    0 < q := by
  unfold currentPriceOf at h
  cases hl : pricesOf txt with
  | nil => rw [hl] at h; cases h
  | cons a l =>
    rw [hl] at h
    injection h with h
    subst h
    exact pricesOf_pos txt _ (by rw [hl]; exact List.mem_cons_self _ _)

theorem originalPriceOf_pos (txt : List Char) (q : ℚ) (h : originalPriceOf txt = some q) :
    0 < q := by
  unfold originalPriceOf at h
  split at h
  · rename_i p0 p1 rest heq
    split at h
    · injection h with h
      subst h
      exact pricesOf_pos txt _ (by rw [heq]; simp)
    · cases h
  · cases h

theorem originalPriceOf_lt (txt : List Char) (o c : ℚ) (ho : originalPriceOf txt = some o)
    (hc : currentPriceOf txt = some c) : c < o := by
  unfold originalPriceOf at ho
  unfold currentPriceOf at hc
  split at ho
  · rename_i p0 p1 rest heq
    rw [heq] at hc
    injection hc with hc
    split at ho
    · injection ho with ho
      subst ho
      subst hc
      assumption
    · cases ho
  · cases ho

theorem discountOf_nonneg (txt : List Char) : 0 ≤ discountOf txt := by
  unfold discountOf
  split
  · rename_i o c ho hc
    split
    · rename_i hcond
      apply pyround2_nonneg
      rw [qMul_eq, qDiv_eq, qSub_eq]
      have hopos : 0 < o := originalPriceOf_pos txt o ho
      have hco : c < o := hcond.2.2
      have : 0 ≤ (o - c) / o := div_nonneg (by linarith) (le_of_lt hopos)
      positivity
    · exact le_refl 0
  · exact le_refl 0

/-- The fields of any record `extractProduct` emits. -/
theorem extractProduct_eq (a : AnchorCtx) (p : Product) (h : extractProduct a = some p) :
    p.product_id = productIdOf (getHref a.node) ∧ p.title = titleOf a ∧
      p.current_price = currentPriceOf (parentText a) ∧
      p.original_price = originalPriceOf (parentText a) ∧
      p.discount_percent = discountOf (parentText a) ∧ p.sold_count = soldOf (parentText a) ∧
      p.rating = ratingOf (parentText a) ∧ p.review_count = reviewOf (parentText a) ∧
      p.url = urlOf (getHref a.node) := by
  unfold extractProduct at h
  split at h
  · injection h with h
    subst h
    exact ⟨rfl, rfl, rfl, rfl, rfl, rfl, rfl, rfl, rfl⟩
  · cases h

/-- Acceptance depends on the cleaned title alone. -/
theorem extractProduct_isSome (a : AnchorCtx) :
    (extractProduct a).isSome = true ↔ (titleOf a ≠ "" ∧ 5 < (titleOf a).length) := by
  unfold extractProduct
  split
  · simp_all
  · simp_all

/-! ## Helper lemmas: the sink never writes an empty numeric cell -/

theorem natCharsAux_ne_nil (f n : ℕ) (acc : List Char) (h : acc ≠ []) :
    natCharsAux f n acc ≠ [] := by
  induction f generalizing n acc with
  | zero => exact h
  | succ f ih =>
    simp only [natCharsAux]
    split
    · exact h
    · exact ih _ _ (by simp)

theorem natChars_ne_nil (n : ℕ) : natChars n ≠ [] := by
  unfold natChars
  split
  · simp
  · rename_i hn
    simp only [natCharsAux]
    rw [if_neg hn]
    exact natCharsAux_ne_nil _ _ _ (by simp)

theorem fmtRatAbs_ne_nil (q : ℚ) : fmtRatAbs q ≠ [] := by
  unfold fmtRatAbs
  split
  · split
    · exact natChars_ne_nil _
    · intro hc
      exact natChars_ne_nil _ (List.append_eq_nil.mp hc).1
  · intro hc
    exact natChars_ne_nil _ (List.append_eq_nil.mp hc).1

theorem mk_ne_empty (l : List Char) (h : l ≠ []) : String.mk l ≠ "" := by
  intro hc
  exact h (congrArg String.data hc)

theorem fmtRat_ne_empty (q : ℚ) : fmtRat q ≠ "" := by
  unfold fmtRat
  split
  · exact mk_ne_empty _ (by simp)
  · exact mk_ne_empty _ (fmtRatAbs_ne_nil _)

theorem fmtInt_ne_empty (i : ℤ) : fmtInt i ≠ "" := by
  unfold fmtInt
  split
  · exact mk_ne_empty _ (by simp)
  · exact mk_ne_empty _ (natChars_ne_nil _)

theorem fmtNat_ne_empty (n : ℕ) : fmtNat n ≠ "" := by
  exact mk_ne_empty _ (natChars_ne_nil _)

/-! ## Helper lemmas: CSV writer / reader round trip -/

theorem scanU_comma (t : List Char) (cur : List Char) (row : List (List Char)) :
    scanU (',' :: t) cur row = scanU t [] (row ++ [cur]) := by
  cases t with
  | nil => rfl
  | cons d t2 => cases t2 <;> rfl

theorem scanU_crlf (t : List Char) (cur : List Char) (row : List (List Char)) :
    scanU ('\r' :: '\n' :: t) cur row = (row ++ [cur]) :: scanU t [] [] := rfl

theorem scanU_quote (t : List Char) (row : List (List Char)) :
    scanU ('"' :: t) [] row = scanQ t [] row := by
  cases t with
  | nil => rfl
  | cons d t2 => cases t2 <;> rfl

theorem scanU_cons (c : Char) (t cur : List Char) (row : List (List Char)) (h1 : c ≠ ',')
    (h2 : c ≠ '"') (h3 : c ≠ '\r') : scanU (c :: t) cur row = scanU t (cur ++ [c]) row := by
  cases t with
  | nil => simp [scanU, h1, h2, h3]
  | cons d t2 => simp [scanU, h1, h2, h3]

theorem scanQ_dq (t cur : List Char) (row : List (List Char)) :
    scanQ ('"' :: '"' :: t) cur row = scanQ t (cur ++ ['"']) row := rfl

theorem scanQ_endq (t cur : List Char) (row : List (List Char)) (h : t.head? ≠ some '"') :
    scanQ ('"' :: t) cur row = scanU t cur row := by
  cases t with
  | nil => rfl
  | cons d t2 =>
    have hd : d ≠ '"' := by
      intro h2
      subst h2
      simp at h
    simp [scanQ, hd]

theorem scanQ_cons (c : Char) (t cur : List Char) (row : List (List Char)) (h : c ≠ '"') :
    scanQ (c :: t) cur row = scanQ t (cur ++ [c]) row := by
  cases t with
  | nil => simp [scanQ, h]
  | cons d t2 => simp [scanQ, h]

theorem escQ_cons (c : Char) (t : List Char) (h : c ≠ '"') : escQ (c :: t) = c :: escQ t := by
  simp [escQ, h]

/-- Reading back a quoted cell body recovers it verbatim. -/
theorem scan_quoted (f rest cur : List Char) (row : List (List Char))
    (h : rest.head? ≠ some '"') :
    scanQ (escQ f ++ '"' :: rest) cur row = scanU rest (cur ++ f) row := by
  induction f generalizing cur with
  | nil =>
    show scanQ ('"' :: rest) cur row = _
    rw [scanQ_endq rest cur row h]
    simp
  | cons a f ih =>
    by_cases ha : a = '"'
    · subst ha
      show scanQ ('"' :: '"' :: (escQ f ++ '"' :: rest)) cur row = _
      rw [scanQ_dq, ih]
      simp
    · rw [escQ_cons a f ha]
      show scanQ (a :: (escQ f ++ '"' :: rest)) cur row = _
      rw [scanQ_cons a _ cur row ha, ih]
      simp

/-- Reading an unquoted cell accumulates it verbatim. -/
theorem scan_unquoted (f rest cur : List Char) (row : List (List Char))
    (hf : ∀ c ∈ f, ¬(c = ',' ∨ c = '"' ∨ c = '\r' ∨ c = '\n')) :
    scanU (f ++ rest) cur row = scanU rest (cur ++ f) row := by
  induction f generalizing cur with
  | nil => simp
  | cons a f ih =>
    have ha := hf a (List.mem_cons_self _ _)
    push_neg at ha
    show scanU (a :: (f ++ rest)) cur row = _
    rw [scanU_cons a _ cur row ha.1 ha.2.1 ha.2.2.1]
    rw [ih (cur ++ [a]) (fun c hc => hf c (List.mem_cons_of_mem _ hc))]
    simp

/-- Reading back one rendered cell recovers the cell. -/
theorem scan_cell (s : String) (d : Char) (rest : List Char) (row : List (List Char))
    (hd : d = ',' ∨ d = '\r') :
    scanU (renderCell s ++ d :: rest) [] row = scanU (d :: rest) s.data row := by
  unfold renderCell
  split
  · have hne : (d :: rest).head? ≠ some '"' := by
      rcases hd with h | h <;> subst h <;> intro hc <;> simp at hc
    have e : ('"' :: (escQ s.data ++ ['"'])) ++ d :: rest
        = '"' :: (escQ s.data ++ '"' :: (d :: rest)) := by simp
    rw [e, scanU_quote, scan_quoted _ _ _ _ hne]
    simp
  · rename_i hq
    have hf : ∀ c ∈ s.data, ¬(c = ',' ∨ c = '"' ∨ c = '\r' ∨ c = '\n') := by
      intro c hc hor
      apply hq
      unfold needsQuote
      rw [List.any_eq_true]
      exact ⟨c, hc, by rcases hor with h | h | h | h <;> simp [h]⟩
    rw [scan_unquoted _ _ _ _ hf]
    simp

/-- Reading back one rendered row recovers its cells. -/
theorem scan_row (c : String) (cs : List String) (rest : List Char) (row : List (List Char)) :
    scanU (joinComma ((c :: cs).map renderCell) ++ '\r' :: '\n' :: rest) [] row
      = (row ++ (c :: cs).map String.data) :: scanU rest [] [] := by
  induction cs generalizing c row with
  | nil =>
    show scanU (renderCell c ++ '\r' :: '\n' :: rest) [] row = _
    rw [scan_cell c '\r' ('\n' :: rest) row (Or.inr rfl), scanU_crlf]
    simp
  | cons c2 cs2 ih =>
    show scanU ((renderCell c ++ ',' :: joinComma ((c2 :: cs2).map renderCell)) ++
        '\r' :: '\n' :: rest) [] row = _
    have e : (renderCell c ++ ',' :: joinComma ((c2 :: cs2).map renderCell)) ++
        '\r' :: '\n' :: rest
        = renderCell c ++ ',' :: (joinComma ((c2 :: cs2).map renderCell) ++
            '\r' :: '\n' :: rest) := by simp
    rw [e, scan_cell c ',' _ row (Or.inl rfl), scanU_comma, ih c2 (row ++ [c.data])]
    simp

/-- Reading back the whole rendered file recovers every row. -/
theorem scan_rows (rs : List (List String)) (h : ∀ r ∈ rs, r ≠ []) :
    scanU (concatAll (rs.map renderRow)) [] [] = rs.map fun r => r.map String.data := by
  induction rs with
  | nil => rfl
  | cons r rs ih =>
    cases r with
    | nil => exact absurd rfl (h [] (List.mem_cons_self _ _))
    | cons c cs =>
      have e : renderRow (c :: cs) ++ concatAll (rs.map renderRow)
          = joinComma ((c :: cs).map renderCell) ++
            '\r' :: '\n' :: concatAll (rs.map renderRow) := by
        unfold renderRow
        simp
      show scanU (renderRow (c :: cs) ++ concatAll (rs.map renderRow)) [] [] = _
      rw [e, scan_row, ih (fun r hr => h r (List.mem_cons_of_mem _ hr))]
      simp

theorem mk_data (s : String) : String.mk s.data = s := rfl

/-! ## Helper lemmas: anchor discovery -/

/-- `find_all` keeps an `a` tag exactly when the href pattern matches. -/
theorem isProductLink_iff (n : Node) :
    isProductLink n = true ↔ (n.tagName = "a" ∧ hrefMatch (getHref n).data = true) := by
  unfold isProductLink getHref
  cases h : n.attr? "href" with
  | none =>
    simp only [h, Option.getD_none, Bool.and_eq_true, decide_eq_true_iff]
    constructor
    · intro hx
      exact absurd hx.2 (by decide)
    · intro hx
      exact absurd hx.2 (by decide)
  | some s =>
    simp [h, Bool.and_eq_true, decide_eq_true_iff]

/-- The second filter, spelled out. -/
theorem keepLink_iff (n : Node) :
    keepLink n = true ↔
      (containsSub (getHref n).data "channel".data = false ∧
        containsSub (getHref n).data "home-kitchen".data = false ∧
        containsSub (getHref n).data "category".data = false ∧
        containsSub (getHref n).data "search".data = false ∧
        30 < (getHref n).data.length ∧ (getHref n).data.contains '-' = true) := by
  unfold keepLink
  simp only [Bool.and_eq_true, Bool.not_eq_true', Bool.or_eq_false_iff, decide_eq_true_iff,
    String.length]
  tauto

/-- The parent walk is a first-match search for `body`-or-`Rs.`. -/
theorem walkUp_find (anc : List Node) :
    walkUp anc =
      anc.find? (fun n => (n.tagName == "body") || containsSub n.getTextL ['R', 's', '.']) := by
  induction anc with
  | nil => rfl
  | cons n rest ih =>
    by_cases hb : n.tagName = "body"
    · simp [walkUp, List.find?, hb]
    · by_cases hr : containsSub n.getTextL ['R', 's', '.'] = true
      · simp [walkUp, List.find?, hb, hr]
      · simp only [Bool.not_eq_true] at hr
        have hb2 : (n.tagName == "body") = false := by simp [hb]
        simp [walkUp, List.find?, hb, hr, hb2, ih]

/-! ## The claims -/

/-- Claim C1: for Scenario A — an anchor with href
`/pk-en/widget-thing-g-998877.html`, text `Nice Widget`, and container text
`Rs. 500 Rs. 1,200 3.2K+ sold 4.7 out of 5 120 reviews` — extraction emits
exactly the record with product id `998877`, title `Nice Widget`, prices
500 and 1200, discount 58.33, 3200 sold, rating 4.7, 120 reviews and the
absolute URL. -/
theorem temu_c1 :
    extract [scenarioA] =
      [{ product_id := "998877", title := "Nice Widget", current_price := some 500,
         original_price := some 1200, discount_percent := 5833 / 100, sold_count := 3200,
         rating := 47 / 10, review_count := 120,
         url := "https://www.temu.com/pk-en/widget-thing-g-998877.html" }] := by
  have h1 : (5833 / 100 : ℚ) = mkRat 5833 100 := by
    rw [Rat.mkRat_eq_divInt, Rat.divInt_eq_div]
    norm_num
  have h2 : (47 / 10 : ℚ) = mkRat 47 10 := by
    rw [Rat.mkRat_eq_divInt, Rat.divInt_eq_div]
    norm_num
  rw [h1, h2]
  decide

/-- Claim C2 (counterexample): a record whose container text is
`Rs. 100 59 out of 5` is emitted with rating 59, outside `[0, 5]` — the
rating pattern `([0-5]\.?\d*)` bounds only the leading digit. -/
theorem temu_c2_counterexample :
    (extract [ratingCexCtx]).map Product.rating = [59] ∧ ¬((59 : ℚ) ≤ 5) :=
  ⟨by decide, by decide⟩

/-- Claim C2 (amended): the `[0, 5]` bound fails (see the counterexample);
what holds of every emitted record: the rating is non-negative and defaults
to 0 when neither rating pattern matches, and no numeric field is
negative. -/
theorem temu_c2_amended (a : AnchorCtx) (p : Product) (h : extractProduct a = some p) :
    0 ≤ p.rating ∧
      (ratingSearch (parentText a) = none → ratingFallback (parentText a) = none →
        p.rating = 0) ∧
      (∀ q, p.current_price = some q → 0 < q) ∧ (∀ q, p.original_price = some q → 0 < q) ∧
      0 ≤ p.discount_percent ∧ 0 ≤ p.sold_count ∧ 0 ≤ (p.review_count : ℤ) := by
  obtain ⟨-, -, h3, h4, h5, h6, h7, -, -⟩ := extractProduct_eq a p h
  refine ⟨?_, ?_, ?_, ?_, ?_, ?_, ?_⟩
  · rw [h7]
    exact ratingOf_nonneg _
  · intro hr hf
    rw [h7]
    simp [ratingOf, hr, hf]
  · intro q hq
    rw [h3] at hq
    exact currentPriceOf_pos _ _ hq
  · intro q hq
    rw [h4] at hq
    exact originalPriceOf_pos _ _ hq
  · rw [h5]
    exact discountOf_nonneg _
  · rw [h6]
    exact soldOf_nonneg _
  · positivity

theorem temu_c2_witness :
    0 ≤ cexRec.rating ∧ 0 ≤ cexRec.discount_percent ∧ 0 ≤ cexRec.sold_count ∧
      0 ≤ (cexRec.review_count : ℤ) := by
  obtain ⟨w1, -, -, -, w5, w6, w7⟩ := temu_c2_amended ratingCexCtx cexRec (by decide)
  exact ⟨w1, w5, w6, w7⟩

/-- Claim C3 (counterexample): with ancestors `div, body, html, [document]`
none of whose texts contains `Rs.`, the loop selects the `body` ancestor
(the `while` guard stops there), not the immediate parent `div` that the
claim predicts. -/
theorem temu_c3_counterexample :
    (containerOf noRsCtx).map Node.tagName = some "body" ∧
      (specContainerOf noRsCtx.ancestors).map Node.tagName = some "div" ∧
      containerOf noRsCtx ≠ specContainerOf noRsCtx.ancestors := by
  refine ⟨by decide, by decide, fun hc => ?_⟩
  have h := congrArg (Option.map Node.tagName) hc
  have e1 : (containerOf noRsCtx).map Node.tagName = some "body" := by decide
  have e2 : (specContainerOf noRsCtx.ancestors).map Node.tagName = some "div" := by decide
  rw [e1, e2] at h
  exact absurd h (by decide)

/-- Claim C3 (amended): container resolution selects the first ancestor,
walking up from the immediate parent, that either is the `body` tag or
whose full text contains `Rs.`; only when no ancestor qualifies does it
fall back to the anchor's immediate parent. -/
theorem temu_c3_amended (a : AnchorCtx) :
    containerOf a =
      match a.ancestors.find?
          (fun n => (n.tagName == "body") || containsSub n.getTextL ['R', 's', '.']) with
      | some n => some n
      | none => a.ancestors.head? := by
  unfold containerOf
  rw [walkUp_find]

theorem temu_c3_witness :
    containerOf noRsCtx =
      match noRsCtx.ancestors.find?
          (fun n => (n.tagName == "body") || containsSub n.getTextL ['R', 's', '.']) with
      | some n => some n
      | none => noRsCtx.ancestors.head? :=
  temu_c3_amended noRsCtx

/-- Claim C4: the current price is the first positive price of the container
text in document order; the original price is the second positive price only
when strictly greater than the first (Scenario B: a lone `Rs. 750` leaves it
absent); the discount equals `round((original-current)/original*100, 2)`
when both prices are present and is 0 otherwise. -/
theorem temu_c4 :
    (∀ (a : AnchorCtx) (p : Product), extractProduct a = some p →
        p.current_price = (pricesOf (parentText a)).head? ∧
        p.original_price =
          (match pricesOf (parentText a) with
            | p0 :: p1 :: _ => if p0 < p1 then some p1 else none
            | _ => none) ∧
        (∀ o c, p.original_price = some o → p.current_price = some c →
          p.discount_percent = pyround2 ((o - c) / o * 100)) ∧
        (p.original_price = none → p.discount_percent = 0)) ∧
      (extract [scenarioB]).map (fun p => (p.original_price, p.discount_percent)) =
        [(none, 0)] := by
  constructor
  · intro a p h
    obtain ⟨-, -, h3, h4, h5, -, -, -, -⟩ := extractProduct_eq a p h
    refine ⟨h3, by rw [h4]; rfl, ?_, ?_⟩
    · intro o c ho hc
      rw [h4] at ho
      rw [h3] at hc
      have hop := originalPriceOf_pos _ _ ho
      have hcp := currentPriceOf_pos _ _ hc
      have hco := originalPriceOf_lt _ _ _ ho hc
      rw [h5]
      unfold discountOf
      rw [ho, hc]
      dsimp only
      rw [if_pos ⟨ne_of_gt hop, ne_of_gt hcp, hco⟩, qMul_eq, qDiv_eq, qSub_eq]
    · intro ho
      rw [h4] at ho
      rw [h5]
      unfold discountOf
      simp [ho]
  · decide

theorem temu_c4_witness :
    recA.current_price = (pricesOf (parentText scenarioA)).head? ∧
      recA.discount_percent = pyround2 ((1200 - 500) / 1200 * 100) := by
  refine ⟨(temu_c4.1 scenarioA recA (by decide)).1, ?_⟩
  exact (temu_c4.1 scenarioA recA (by decide)).2.2.1 1200 500 (by decide) (by decide)

/-- Claim C5: a candidate becomes a record exactly when its cleaned title is
non-empty and longer than 5 characters; Scenario C (anchor text `Hi`)
yields no record; no other extraction failure disqualifies a candidate. -/
theorem temu_c5 :
    (∀ a : AnchorCtx, (extractProduct a).isSome = true ↔
        (titleOf a ≠ "" ∧ 5 < (titleOf a).length)) ∧
      extract [scenarioC] = [] :=
  ⟨extractProduct_isSome, by decide⟩

theorem temu_c5_witness :
    ((extractProduct scenarioA).isSome = true ↔
        (titleOf scenarioA ≠ "" ∧ 5 < (titleOf scenarioA).length)) ∧
      extract [scenarioC] = [] :=
  ⟨temu_c5.1 scenarioA, temu_c5.2⟩

/-- Claim C6: an href containing a denylisted fragment, or too short, or
hyphen-free, is dropped by discovery and produces no record. -/
theorem temu_c6 (a : AnchorCtx)
    (h : (containsSub (getHref a.node).data "category".data = true ∨
        containsSub (getHref a.node).data "search".data = true ∨
        containsSub (getHref a.node).data "channel".data = true ∨
        containsSub (getHref a.node).data "home-kitchen".data = true) ∨
      ¬(30 < (getHref a.node).data.length) ∨
      (getHref a.node).data.contains '-' = false) :
    keepLink a.node = false ∧ extract [a] = [] := by
  have hk : keepLink a.node = false := by
    cases hkl : keepLink a.node
    · rfl
    · obtain ⟨k1, k2, k3, k4, k5, k6⟩ := (keepLink_iff a.node).mp hkl
      rcases h with (h | h | h | h) | h | h
      · rw [k3] at h
        simp at h
      · rw [k4] at h
        simp at h
      · rw [k1] at h
        simp at h
      · rw [k2] at h
        simp at h
      · exact absurd k5 h
      · rw [k6] at h
        simp at h
  refine ⟨hk, ?_⟩
  unfold extract
  cases hp : isProductLink a.node
  · simp [List.filter, hp]
  · simp [List.filter, hp, hk]

theorem temu_c6_witness : keepLink ctxDeny.node = false ∧ extract [ctxDeny] = [] :=
  temu_c6 ctxDeny (Or.inl (Or.inl (by decide)))

/-- Claim C7: the sink's columns are id, title, current price, original
price, discount, items sold, rating, review count, url, under the exact
header of §6; an absent price serializes as an empty cell; discount, sold
count, rating and review count always serialize a numeral, never an empty
cell. -/
theorem temu_c7 (p : Product) :
    headerCells =
      ["Product ID", "Title", "Current Price (Rs.)", "Original Price (Rs.)", "Discount (%)",
        "Items Sold", "Rating (Stars)", "Review Count", "Product URL"] ∧
    productRow p =
      [p.product_id, p.title, priceCell p.current_price, priceCell p.original_price,
        fmtRat p.discount_percent, fmtInt p.sold_count, fmtRat p.rating,
        fmtNat p.review_count, p.url] ∧
    (p.current_price = none → priceCell p.current_price = "") ∧
    (p.original_price = none → priceCell p.original_price = "") ∧
    fmtRat p.discount_percent ≠ "" ∧ fmtInt p.sold_count ≠ "" ∧ fmtRat p.rating ≠ "" ∧
    fmtNat p.review_count ≠ "" := by
  refine ⟨rfl, rfl, ?_, ?_, fmtRat_ne_empty _, fmtInt_ne_empty _, fmtRat_ne_empty _,
    fmtNat_ne_empty _⟩
  · intro h
    rw [h]
    rfl
  · intro h
    rw [h]
    rfl

theorem temu_c7_witness :
    priceCell demoProd.current_price = "" ∧ priceCell demoProd.original_price = "" ∧
      fmtRat demoProd.discount_percent ≠ "" ∧ fmtInt demoProd.sold_count ≠ "" ∧
      fmtRat demoProd.rating ≠ "" ∧ fmtNat demoProd.review_count ≠ "" := by
  obtain ⟨-, -, w3, w4, w5, w6, w7, w8⟩ := temu_c7 demoProd
  exact ⟨w3 rfl, w4 rfl, w5, w6, w7, w8⟩

/-- Claim C8: an empty document extracts to the empty record sequence, and
the sink on an empty sequence is a no-op (`none`), not an error. -/
theorem temu_c8 : extract ([] : List AnchorCtx) = [] ∧ saveToCsv [] = none :=
  ⟨rfl, rfl⟩

/-- Claim C9: writing any non-empty record sequence and re-parsing the
produced text per the quoting rules yields exactly the header row plus one
row per record in order, and every row — hence every title, delimiters and
newlines included — is recovered verbatim. -/
theorem temu_c9 (ps : List Product) (h : ps ≠ []) :
    saveToCsv ps = some (csvFileContent ps) ∧
      parseCSV (csvFileContent ps) = headerCells :: ps.map productRow ∧
      ∀ p ∈ ps, productRow p ∈ parseCSV (csvFileContent ps) := by
  have hparse : parseCSV (csvFileContent ps) = headerCells :: ps.map productRow := by
    unfold parseCSV csvFileContent
    have hdata : (String.mk (renderRow headerCells ++
        concatAll (ps.map fun p => renderRow (productRow p)))).data
        = concatAll ((headerCells :: ps.map productRow).map renderRow) := by
      show renderRow headerCells ++ concatAll (ps.map fun p => renderRow (productRow p)) = _
      simp [concatAll, List.map_map, Function.comp_def]
    rw [hdata, scan_rows]
    · simp [List.map_map, Function.comp_def, mk_data]
    · intro r hr
      rcases List.mem_cons.mp hr with h1 | h2
      · subst h1
        simp [headerCells]
      · obtain ⟨p, -, rfl⟩ := List.mem_map.mp h2
        simp [productRow]
  refine ⟨by simp [saveToCsv, h], hparse, ?_⟩
  intro p hp
  rw [hparse]
  exact List.mem_cons_of_mem _ (List.mem_map_of_mem _ hp)

theorem temu_c9_witness :
    saveToCsv [demoProd] = some (csvFileContent [demoProd]) ∧
      parseCSV (csvFileContent [demoProd]) = headerCells :: [demoProd].map productRow ∧
      productRow demoProd ∈ parseCSV (csvFileContent [demoProd]) := by
  obtain ⟨w1, w2, w3⟩ := temu_c9 [demoProd] (by simp)
  exact ⟨w1, w2, w3 demoProd (List.mem_cons_self _ _)⟩

/-- Claim C10: an `a` tag survives discovery exactly when its href matches
the `/pk-en/…\.html` pattern, contains none of `channel`, `home-kitchen`,
`category`, `search`, is longer than 30 characters and contains a hyphen;
an href of length exactly 30 yields no record even when otherwise valid. -/
theorem temu_c10 (a : AnchorCtx) (h : a.node.tagName = "a") :
    ((isProductLink a.node && keepLink a.node) = true ↔
      (hrefMatch (getHref a.node).data = true ∧
        containsSub (getHref a.node).data "channel".data = false ∧
        containsSub (getHref a.node).data "home-kitchen".data = false ∧
        containsSub (getHref a.node).data "category".data = false ∧
        containsSub (getHref a.node).data "search".data = false ∧
        30 < (getHref a.node).data.length ∧
        (getHref a.node).data.contains '-' = true)) ∧
      extract [ctx30] = [] := by
  constructor
  · rw [Bool.and_eq_true, isProductLink_iff, keepLink_iff]
    constructor
    · rintro ⟨⟨-, h2⟩, k1, k2, k3, k4, k5, k6⟩
      exact ⟨h2, k1, k2, k3, k4, k5, k6⟩
    · rintro ⟨h2, k1, k2, k3, k4, k5, k6⟩
      exact ⟨⟨h, h2⟩, k1, k2, k3, k4, k5, k6⟩
  · decide

theorem temu_c10_witness :
    ((isProductLink scenarioA.node && keepLink scenarioA.node) = true ↔
      (hrefMatch (getHref scenarioA.node).data = true ∧
        containsSub (getHref scenarioA.node).data "channel".data = false ∧
        containsSub (getHref scenarioA.node).data "home-kitchen".data = false ∧
        containsSub (getHref scenarioA.node).data "category".data = false ∧
        containsSub (getHref scenarioA.node).data "search".data = false ∧
        30 < (getHref scenarioA.node).data.length ∧
        (getHref scenarioA.node).data.contains '-' = true)) ∧
      extract [ctx30] = [] :=
  temu_c10 scenarioA rfl

end Temu
